import Mathlib

/-!
# Verification of the hotel booking calendar parser

Shallow embedding of the Google-Sheets hotel booking parser
(`src/app/parser.py`, with the legacy variant `src/parser.py` and the HTTP
layer `src/app/main.py`).  Grid cells are strings; machine dates are
`Date` records of year/month/day naturals; Python `dict`s keyed by dates
appear as association lists in insertion order; Python functions that can
raise return `Option`/pairs mirroring the `except` handlers of the source.
-/

namespace SheetsParser

/-! ## Character and string helpers (Python `str` operations) -/

/-- ASCII uppercase conversion of a single character, as applied by
Python's `str.upper()` on the cell references handled here. -/
def asciiUpper (c : Char) : Char :=
  if 'a' ≤ c ∧ c ≤ 'z' then Char.ofNat (c.toNat - 32) else c

/-- Lowercase conversion of a single character covering the ASCII and
Cyrillic alphabets used by the parser's bilingual lexicons, as applied by
Python's `str.lower()` on those strings. -/
def pyLowerChar (c : Char) : Char :=
  if 'A' ≤ c ∧ c ≤ 'Z' then Char.ofNat (c.toNat + 32)
  else if 'А' ≤ c ∧ c ≤ 'Я' then Char.ofNat (c.toNat + 32)
  else if c = 'Ё' then 'ё'
  else c

/-- Python `str.lower()` for the strings this parser compares. -/
def pyLower (s : String) : String := ⟨s.data.map pyLowerChar⟩

/-- Python `str.upper()` for the strings this parser compares. -/
def pyUpper (s : String) : String := ⟨s.data.map asciiUpper⟩

/-- Uppercase Latin letter test, the `[A-Z]` class of the cell-reference
regular expression. -/
def isUpperLetter (c : Char) : Bool := ('A' ≤ c) && (c ≤ 'Z')

/-- Decimal digit test, the `\d` class of the regular expressions. -/
def isDigit10 (c : Char) : Bool := ('0' ≤ c) && (c ≤ '9')

/-- Numeric value of a list of decimal digit characters, as `int()` reads
the digits matched by `\d+`. -/
def natOfDigits (l : List Char) : Nat :=
  l.foldl (fun a c => a * 10 + (c.toNat - 48)) 0

/-- The decimal digit character for a value `0`–`9`, i.e. `chr(48 + d)`. -/
def digitChar10 (d : Nat) : Char :=
  match d with
  | 0 => '0' | 1 => '1' | 2 => '2' | 3 => '3' | 4 => '4'
  | 5 => '5' | 6 => '6' | 7 => '7' | 8 => '8' | _ => '9'

/-- The uppercase letter at offset `m` from `A`, i.e. `chr(65 + m)` for
`m < 26`. -/
def letterChar (m : Nat) : Char :=
  match m with
  | 0 => 'A' | 1 => 'B' | 2 => 'C' | 3 => 'D' | 4 => 'E' | 5 => 'F'
  | 6 => 'G' | 7 => 'H' | 8 => 'I' | 9 => 'J' | 10 => 'K' | 11 => 'L'
  | 12 => 'M' | 13 => 'N' | 14 => 'O' | 15 => 'P' | 16 => 'Q' | 17 => 'R'
  | 18 => 'S' | 19 => 'T' | 20 => 'U' | 21 => 'V' | 22 => 'W' | 23 => 'X'
  | 24 => 'Y' | _ => 'Z'

/-- Decimal digit characters of a natural number, most significant first;
fuel-indexed helper for Python's `str(n)` on a non-negative `int`. -/
def natDigitsAux : Nat → Nat → List Char
  | 0, _ => []
  | fuel + 1, n =>
    if n < 10 then [digitChar10 n]
    else natDigitsAux fuel (n / 10) ++ [digitChar10 (n % 10)]

/-- Decimal digit characters of a natural number (`str(n)` in Python). -/
def natDigits (n : Nat) : List Char := natDigitsAux (n + 1) n

/-- Python `str(n)` for a non-negative integer. -/
def natToStr (n : Nat) : String := ⟨natDigits n⟩

/-! ## 4.1 Cell Reference Codec -/

/-- Base-26 letter run of the 1-based column value `n`; fuel-indexed
helper for the `while col_idx > 0` loop of `_col_index_to_letter`. -/
def encodeColAux : Nat → Nat → List Char
  | 0, _ => []
  | fuel + 1, n =>
    if n = 0 then []
    else encodeColAux fuel ((n - 1) / 26) ++ [letterChar ((n - 1) % 26)]

/-- The letter run produced by `_col_index_to_letter` for the 1-based
column value `n` (the source first adds 1 to the 0-based index). -/
def encodeCol (n : Nat) : List Char := encodeColAux n n

/-- `_col_index_to_letter`: 0-based column index to Excel column letters. -/
def col_index_to_letter (colIdx : Nat) : String := ⟨encodeCol (colIdx + 1)⟩

/-- Value of a letter run under the fold
`col = col * 26 + (ord(ch) - ord('A') + 1)` of `_cell_to_indices`. -/
def lettersVal (l : List Char) : Nat :=
  l.foldl (fun a c => a * 26 + (c.toNat - 64)) 0

/-- `_cell_to_indices`: an Excel reference such as `C7` or `AA10` to a
0-based `(row, column)` pair.  The input is uppercased, must match
`^([A-Z]+)(\d+)$` (maximal letter prefix, then only digits), the letters
are read in base 26 with `A = 1`, and 1 is subtracted from both parts.
The row is an integer because a row number `0` yields Python `-1`;
`none` models the `ValueError` raised on a failed match. -/
def cell_to_indices (s : String) : Option (Int × Nat) :=
  let cs := s.data.map asciiUpper
  let letters := cs.takeWhile isUpperLetter
  let rest := cs.dropWhile isUpperLetter
  if letters ≠ [] ∧ rest ≠ [] ∧ rest.all isDigit10 then
    some ((natOfDigits rest : Int) - 1, lettersVal letters - 1)
  else none

/-! ### Codec lemmas -/

theorem letterChar_toNat : ∀ m : Nat, m < 26 → (letterChar m).toNat = 65 + m := by
  have h : ∀ m : Fin 26, (letterChar m.val).toNat = 65 + m.val := by decide
  intro m hm
  exact h ⟨m, hm⟩

theorem letterChar_isUpper : ∀ m : Nat, m < 26 → isUpperLetter (letterChar m) = true := by
  have h : ∀ m : Fin 26, isUpperLetter (letterChar m.val) = true := by decide
  intro m hm
  exact h ⟨m, hm⟩

theorem letterChar_upper_fixed : ∀ m : Nat, m < 26 → asciiUpper (letterChar m) = letterChar m := by
  have h : ∀ m : Fin 26, asciiUpper (letterChar m.val) = letterChar m.val := by decide
  intro m hm
  exact h ⟨m, hm⟩

theorem digitChar10_spec : ∀ d : Nat, d < 10 →
    isDigit10 (digitChar10 d) = true ∧ isUpperLetter (digitChar10 d) = false ∧
    asciiUpper (digitChar10 d) = digitChar10 d ∧ (digitChar10 d).toNat = 48 + d := by
  have h : ∀ d : Fin 10,
      isDigit10 (digitChar10 d.val) = true ∧ isUpperLetter (digitChar10 d.val) = false ∧
      asciiUpper (digitChar10 d.val) = digitChar10 d.val ∧
      (digitChar10 d.val).toNat = 48 + d.val := by decide
  intro d hd
  exact h ⟨d, hd⟩

theorem lettersVal_append_singleton (xs : List Char) (c : Char) :
    lettersVal (xs ++ [c]) = lettersVal xs * 26 + (c.toNat - 64) := by
  simp [lettersVal, List.foldl_append]

/-- Every character emitted by `encodeColAux` is an uppercase letter. -/
theorem encodeColAux_upper : ∀ fuel n c, c ∈ encodeColAux fuel n →
    isUpperLetter c = true ∧ asciiUpper c = c := by
  intro fuel
  induction fuel with
  | zero => intro n c hc; simp [encodeColAux] at hc
  | succ f ih =>
    intro n c hc
    by_cases h0 : n = 0
    · simp [encodeColAux, h0] at hc
    · simp only [encodeColAux, if_neg h0, List.mem_append, List.mem_singleton] at hc
      rcases hc with hc | hc
      · exact ih _ _ hc
      · subst hc
        have hlt : (n - 1) % 26 < 26 := Nat.mod_lt _ (by norm_num)
        exact ⟨letterChar_isUpper _ hlt, letterChar_upper_fixed _ hlt⟩

/-- With fuel at least `n`, the letter run of `n` decodes back to `n`. -/
theorem encodeColAux_decode : ∀ fuel n, n ≤ fuel →
    lettersVal (encodeColAux fuel n) = n := by
  intro fuel
  induction fuel with
  | zero => intro n hn; interval_cases n; simp [encodeColAux, lettersVal]
  | succ f ih =>
    intro n hn
    by_cases h0 : n = 0
    · simp [encodeColAux, h0, lettersVal]
    · have hpos : 1 ≤ n := Nat.one_le_iff_ne_zero.mpr h0
      have hrec : (n - 1) / 26 ≤ f := by
        have h1 : (n - 1) / 26 ≤ n - 1 := Nat.div_le_self _ _
        omega
      have hlt : (n - 1) % 26 < 26 := Nat.mod_lt _ (by norm_num)
      simp only [encodeColAux, if_neg h0]
      rw [lettersVal_append_singleton, ih _ hrec, letterChar_toNat _ hlt]
      have := Nat.div_add_mod (n - 1) 26
      omega

/-- The letter run of a positive value is nonempty. -/
theorem encodeColAux_ne_nil : ∀ fuel n, 1 ≤ n → n ≤ fuel →
    encodeColAux fuel n ≠ [] := by
  intro fuel n h1 h2
  cases fuel with
  | zero => omega
  | succ f =>
    simp only [encodeColAux, if_neg (by omega : ¬ n = 0)]
    simp

theorem natOfDigits_append_singleton (xs : List Char) (c : Char) :
    natOfDigits (xs ++ [c]) = natOfDigits xs * 10 + (c.toNat - 48) := by
  simp [natOfDigits, List.foldl_append]

/-- With fuel above `n`, the digit run of `n` is made of digits, is
nonempty, and reads back to `n`. -/
theorem natDigitsAux_spec : ∀ fuel n, n < fuel →
    (∀ c ∈ natDigitsAux fuel n, isDigit10 c = true ∧ isUpperLetter c = false ∧
      asciiUpper c = c) ∧
    natDigitsAux fuel n ≠ [] ∧
    natOfDigits (natDigitsAux fuel n) = n := by
  intro fuel
  induction fuel with
  | zero => intro n hn; omega
  | succ f ih =>
    intro n hn
    by_cases hsmall : n < 10
    · refine ⟨?_, by simp [natDigitsAux, hsmall], ?_⟩
      · intro c hc
        simp [natDigitsAux, hsmall] at hc
        subst hc
        obtain ⟨h1, h2, h3, _⟩ := digitChar10_spec n hsmall
        exact ⟨h1, h2, h3⟩
      · simp only [natDigitsAux, if_pos hsmall]
        have := (digitChar10_spec n hsmall).2.2.2
        simp [natOfDigits, this]
    · have hdiv : n / 10 < f := by
        have h1 : n / 10 < n := Nat.div_lt_self (by omega) (by norm_num)
        omega
      obtain ⟨hall, hne, hval⟩ := ih _ hdiv
      have hm : n % 10 < 10 := Nat.mod_lt _ (by norm_num)
      obtain ⟨hd1, hd2, hd3, hd4⟩ := digitChar10_spec _ hm
      refine ⟨?_, by simp [natDigitsAux, hsmall], ?_⟩
      · intro c hc
        simp only [natDigitsAux, if_neg hsmall, List.mem_append,
          List.mem_singleton] at hc
        rcases hc with hc | hc
        · exact hall c hc
        · subst hc; exact ⟨hd1, hd2, hd3⟩
      · simp only [natDigitsAux, if_neg hsmall]
        rw [natOfDigits_append_singleton, hval, hd4]
        have := Nat.div_add_mod n 10
        omega

/-- `takeWhile`/`dropWhile` split on a concatenation whose first part all
satisfies the predicate and whose second part starts by refuting it. -/
theorem takeWhile_dropWhile_split {p : Char → Bool} :
    ∀ (xs : List Char) (y : Char) (ys : List Char),
    (∀ x ∈ xs, p x = true) → p y = false →
    (xs ++ y :: ys).takeWhile p = xs ∧ (xs ++ y :: ys).dropWhile p = y :: ys := by
  intro xs
  induction xs with
  | nil =>
    intro y ys _ hy
    simp [List.takeWhile, List.dropWhile, hy]
  | cons a t ih =>
    intro y ys hall hy
    have ha : p a = true := hall a (by simp)
    have ht : ∀ x ∈ t, p x = true := fun x hx => hall x (by simp [hx])
    obtain ⟨h1, h2⟩ := ih y ys ht hy
    simp [List.takeWhile, List.dropWhile, ha, h1, h2]

/-- **C9.** Cell reference codec round trip: for all 0-based row and
column indices, decoding the reference formed from
`_col_index_to_letter` of the column followed by the 1-based row number
recovers exactly that row and column; in particular appending `"1"`
yields row 0. -/
theorem cell_to_indices_round_trip :
    (∀ r c : Nat,
      cell_to_indices (col_index_to_letter c ++ natToStr (r + 1)) =
        some ((r : Int), c)) ∧
    (∀ c : Nat,
      cell_to_indices (col_index_to_letter c ++ "1") = some ((0 : Int), c)) := by
  have main : ∀ r c : Nat,
      cell_to_indices (col_index_to_letter c ++ natToStr (r + 1)) =
        some ((r : Int), c) := by
    intro r c
    have hdata : (col_index_to_letter c ++ natToStr (r + 1)).data =
        encodeCol (c + 1) ++ natDigits (r + 1) := rfl
    obtain ⟨hdigAll, hdigNe, hdigVal⟩ := natDigitsAux_spec (r + 2) (r + 1) (by omega)
    have hletAll : ∀ x ∈ encodeCol (c + 1),
        isUpperLetter x = true ∧ asciiUpper x = x :=
      fun x hx => encodeColAux_upper _ _ x hx
    have hletNe : encodeCol (c + 1) ≠ [] :=
      encodeColAux_ne_nil _ _ (by omega) (le_refl _)
    have hletVal : lettersVal (encodeCol (c + 1)) = c + 1 :=
      encodeColAux_decode _ _ (le_refl _)
    obtain ⟨d, ds, hds⟩ : ∃ d ds, natDigits (r + 1) = d :: ds := by
      cases hnd : natDigits (r + 1) with
      | nil => exact absurd hnd hdigNe
      | cons d ds => exact ⟨d, ds, rfl⟩
    have hmap : (encodeCol (c + 1) ++ natDigits (r + 1)).map asciiUpper =
        encodeCol (c + 1) ++ natDigits (r + 1) := by
      rw [List.map_append]
      congr 1
      · exact List.map_congr_left (fun x hx => (hletAll x hx).2) |>.trans
          (List.map_id _)
      · exact List.map_congr_left (fun x hx => (hdigAll x hx).2.2) |>.trans
          (List.map_id _)
    have hdHead : isUpperLetter d = false := by
      have : d ∈ natDigits (r + 1) := by rw [hds]; simp
      exact (hdigAll d this).2.1
    have hsplit := takeWhile_dropWhile_split (p := isUpperLetter)
      (encodeCol (c + 1)) d ds (fun x hx => (hletAll x hx).1) hdHead
    unfold cell_to_indices
    rw [hdata, hmap, hds]
    have hds' : natDigitsAux (r + 2) (r + 1) = d :: ds := hds
    rw [hds'] at hdigVal hdigAll
    simp only [hsplit.1, hsplit.2]
    rw [if_pos ⟨hletNe, by simp,
      by rw [List.all_eq_true]; intro x hx; exact (hdigAll x hx).1⟩]
    rw [hdigVal, hletVal]
    simp
  refine ⟨main, fun c => ?_⟩
  have h1 : natToStr 1 = "1" := rfl
  have := main 0 c
  rw [h1] at this
  exact this

/-! ## Data model: calendar dates

Python `datetime` values are embedded as year/month/day records.  The
`datetime` constructor validates its fields, so functions embedding a
constructor call perform the same validation. -/

/-- A calendar date as held by Python `datetime` / `datetime.date`. -/
structure Date where
  year : Nat
  month : Nat
  day : Nat
  deriving DecidableEq, Repr

/-- Gregorian leap-year rule used by `datetime`. -/
def isLeap (y : Nat) : Bool :=
  y % 4 = 0 && (y % 100 ≠ 0 || y % 400 = 0)

/-- Number of days of month `m` of year `y`. -/
def daysInMonth (y m : Nat) : Nat :=
  if m = 2 then (if isLeap y then 29 else 28)
  else if m = 4 ∨ m = 6 ∨ m = 9 ∨ m = 11 then 30
  else 31

/-- The field validation of the `datetime(year, month, day)` constructor:
`true` when the constructor succeeds, `false` when it raises
`ValueError`. -/
def ctorOk (y m d : Nat) : Bool :=
  1 ≤ y && y ≤ 9999 && 1 ≤ m && m ≤ 12 && 1 ≤ d && d ≤ daysInMonth y m

/-- A date with structurally valid month and day fields, as holds of
every `datetime.date` value (the year-9999 ceiling, relevant only at
`date.max`, is checked separately by `ctorOk`). -/
def Date.Valid (d : Date) : Prop :=
  1 ≤ d.year ∧ 1 ≤ d.month ∧ d.month ≤ 12 ∧
    1 ≤ d.day ∧ d.day ≤ daysInMonth d.year d.month

instance (d : Date) : Decidable d.Valid := by
  unfold Date.Valid; infer_instance

/-! ## String scaffolding for the Python operations on cell text -/

/-- The whitespace stripped by Python `str.strip()` on the cell text
handled here. -/
def isSpaceChar (c : Char) : Bool :=
  c = ' ' || c = '\t' || c = '\n' || c = '\r' || c = '\x0b' || c = '\x0c'

/-- Python `str.strip()`. -/
def pyStrip (s : String) : String :=
  ⟨((s.data.dropWhile isSpaceChar).reverse.dropWhile isSpaceChar).reverse⟩

/-- Split a character list at every occurrence of `sep`, as Python
`str.split(sep)` for the one-character separators used by the date
formats. -/
def splitOnChar (sep : Char) : List Char → List (List Char)
  | [] => [[]]
  | c :: t =>
    let r := splitOnChar sep t
    if c = sep then [] :: r
    else
      match r with
      | h :: t' => (c :: h) :: t'
      | [] => [[c]]

/-- First maximal run of decimal digits in a string: the head of
`re.findall(r"\d+", s)`, `none` when there is no digit. -/
def firstDigitRun (s : String) : Option (List Char) :=
  let run := (s.data.dropWhile (fun c => !isDigit10 c)).takeWhile isDigit10
  if run = [] then none else some run

/-! ## 4.3 Bilingual Date Lexicon (`_parse_month_name`) and weekday
abbreviations -/

/-- Russian month names and abbreviations, from `_parse_month_name`. -/
def monthsRu : List (String × Nat) :=
  [("январь", 1), ("янв", 1), ("февраль", 2), ("фев", 2),
   ("март", 3), ("мар", 3), ("апрель", 4), ("апр", 4),
   ("май", 5), ("июнь", 6), ("июн", 6), ("июль", 7), ("июл", 7),
   ("август", 8), ("авг", 8), ("сентябрь", 9), ("сен", 9),
   ("октябрь", 10), ("окт", 10), ("ноябрь", 11), ("ноя", 11),
   ("декабрь", 12), ("дек", 12)]

/-- English month names and abbreviations, from `_parse_month_name`. -/
def monthsEn : List (String × Nat) :=
  [("january", 1), ("jan", 1), ("february", 2), ("feb", 2),
   ("march", 3), ("mar", 3), ("april", 4), ("apr", 4),
   ("may", 5), ("june", 6), ("jun", 6), ("july", 7), ("jul", 7),
   ("august", 8), ("aug", 8), ("september", 9), ("sep", 9),
   ("october", 10), ("oct", 10), ("november", 11), ("nov", 11),
   ("december", 12), ("dec", 12)]

/-- Lookup in a string-keyed table (Python `dict` of string keys). -/
def lookupStr (l : List (String × Nat)) (k : String) : Option Nat :=
  (l.find? (fun p => p.1 == k)).map (·.2)

/-- `_parse_month_name`: month name or abbreviation (either language,
after strip and lowercase) to its month number. -/
def parse_month_name (text : String) : Option Nat :=
  if text = "" then none
  else
    let t := pyLower (pyStrip text)
    match lookupStr monthsRu t with
    | some m => some m
    | none => lookupStr monthsEn t

/-- Weekday abbreviations skipped by the header walks (both languages),
from `_parse_dates_from_start_cell` / `_find_header_row`. -/
def dayAbbrevs : List String :=
  ["пн", "вт", "ср", "чт", "пт", "сб", "вс",
   "mon", "tue", "wed", "thu", "fri", "sat", "sun"]

/-- Weekday abbreviation test applied to a stripped cell:
`cell_str.lower() in day_abbrevs`. -/
def isDayAbbrev (cell : String) : Bool :=
  dayAbbrevs.contains (pyLower cell)

/-! ## 4.3 Date Token Parser (`_parse_date`)

`strptime` on the five fixed formats is embedded per format: the digit
fields follow CPython's `%d` (one or two digits, value 1–31), `%m` (one
or two digits, value 1–12) and `%Y` (exactly four digits) classes, the
whole string must be consumed, and the resulting fields must pass the
`datetime` constructor.  The two year-less formats default the year to
1900 exactly as `strptime` does. -/

/-- `%d` field: one or two digits with value 1–31. -/
def dayField? (cs : List Char) : Option Nat :=
  if cs ≠ [] ∧ cs.length ≤ 2 ∧ cs.all isDigit10 then
    let v := natOfDigits cs
    if 1 ≤ v ∧ v ≤ 31 then some v else none
  else none

/-- `%m` field: one or two digits with value 1–12. -/
def monthField? (cs : List Char) : Option Nat :=
  if cs ≠ [] ∧ cs.length ≤ 2 ∧ cs.all isDigit10 then
    let v := natOfDigits cs
    if 1 ≤ v ∧ v ≤ 12 then some v else none
  else none

/-- `%Y` field: exactly four digits. -/
def yearField? (cs : List Char) : Option Nat :=
  if cs.length = 4 ∧ cs.all isDigit10 then some (natOfDigits cs) else none

/-- `strptime` with format `day sep month sep year`
(`"%d.%m.%Y"` / `"%d/%m/%Y"`). -/
def parseDMY (sep : Char) (s : String) : Option Date :=
  match splitOnChar sep s.data with
  | [ds, ms, ys] =>
    match dayField? ds, monthField? ms, yearField? ys with
    | some d, some m, some y => if ctorOk y m d then some ⟨y, m, d⟩ else none
    | _, _, _ => none
  | _ => none

/-- `strptime` with format `day sep month` (`"%d.%m"` / `"%d/%m"`);
the year defaults to 1900. -/
def parseDM (sep : Char) (s : String) : Option Date :=
  match splitOnChar sep s.data with
  | [ds, ms] =>
    match dayField? ds, monthField? ms with
    | some d, some m => if ctorOk 1900 m d then some ⟨1900, m, d⟩ else none
    | _, _ => none
  | _ => none

/-- `strptime` with format `"%Y-%m-%d"` (ISO). -/
def parseISO (s : String) : Option Date :=
  match splitOnChar '-' s.data with
  | [ys, ms, ds] =>
    match yearField? ys, monthField? ms, dayField? ds with
    | some y, some m, some d => if ctorOk y m d then some ⟨y, m, d⟩ else none
    | _, _, _ => none
  | _ => none

/-- The `for fmt in formats` loop of `_parse_date`: first fixed format
that parses, in source order, before the year-1900 substitution. -/
def firstFormatParse (s : String) : Option Date :=
  match parseDMY '.' s with
  | some p => some p
  | none =>
    match parseDMY '/' s with
    | some p => some p
    | none =>
      match parseISO s with
      | some p => some p
      | none =>
        match parseDM '.' s with
        | some p => some p
        | none => parseDM '/' s

/-- `_parse_date`: free text to a date.  `today` stands for
`datetime.now()`, whose year and month supply the defaults when the
caller passes `None` (or a falsy `0`).  The fixed formats are tried
first, with a parsed year 1900 replaced by the default year (the
replacement's own `ValueError`, possible only for a default year above
9999, falls through to the digit fallback exactly as the source's
`except ValueError: continue` does, where the constructor check fails
again); otherwise the first digit run is read as a day of month and
combined with the default month and year. -/
def parse_date (today : Date) (dateStr : String)
    (defaultMonth : Option Nat := none) (defaultYear : Option Nat := none) :
    Option Date :=
  if dateStr = "" then none
  else
    let s := pyStrip dateStr
    let dy := defaultYear.getD today.year
    match firstFormatParse s with
    | some p =>
      if dy ≠ 0 ∧ p.year = 1900 then
        if dy ≤ 9999 then some ⟨dy, p.month, p.day⟩ else none
      else some p
    | none =>
      match firstDigitRun s with
      | none => none
      | some run =>
        let day := natOfDigits run
        if 1 ≤ day ∧ day ≤ 31 then
          let m := match defaultMonth with
            | some mm => if mm ≠ 0 then mm else today.month
            | none => today.month
          if ctorOk dy m day then some ⟨dy, m, day⟩ else none
        else none

/-! ### C8: no textual month+day extraction in `_parse_date` -/

/-- **C8 counterexample.** `"Aug 5"` matches no fixed numeric format and
contains the lexicon month `aug` (= 8), yet `_parse_date` returns the
caller-supplied default month 3, not August: the claimed textual
month+day extraction stage does not exist in the code. -/
theorem parse_date_aug5_uses_default_month :
    parse_date ⟨2024, 6, 15⟩ "Aug 5" (some 3) (some 2024) =
      some ⟨2024, 3, 5⟩ ∧
    parse_month_name "Aug" = some 8 ∧
    firstFormatParse (pyStrip "Aug 5") = none := by
  refine ⟨by decide, by decide, by decide⟩

/-- **C8 (amended).** When no fixed numeric format matches, `_parse_date`
ignores any month name in the text and falls through to the bare
day-number fallback: the first digit run, when a valid day 1–31, is
combined with the caller-supplied default month (or the current month)
and the default year, the combination still subject to the `datetime`
constructor check. -/
theorem parse_date_fallback_ignores_month_names
    (today : Date) (s : String) (dm dy : Option Nat) (run : List Char)
    (hne : s ≠ "")
    (hfmt : firstFormatParse (pyStrip s) = none)
    (hrun : firstDigitRun (pyStrip s) = some run)
    (hday : 1 ≤ natOfDigits run ∧ natOfDigits run ≤ 31) :
    parse_date today s dm dy =
      (if ctorOk (dy.getD today.year)
          (match dm with
           | some mm => if mm ≠ 0 then mm else today.month
           | none => today.month)
          (natOfDigits run) = true then
        some ⟨dy.getD today.year,
          (match dm with
           | some mm => if mm ≠ 0 then mm else today.month
           | none => today.month),
          natOfDigits run⟩
      else none) := by
  unfold parse_date
  rw [if_neg hne]
  simp only [hfmt, hrun, if_pos hday]
  rfl

/-- Witness for the amended C8 at a concrete input: `"May 7"` with
default month 2 and default year 2023 yields 2023-02-07, ignoring the
lexicon month May. -/
theorem parse_date_fallback_ignores_month_names_witness :
    parse_date ⟨2025, 1, 1⟩ "May 7" (some 2) (some 2023) =
      some ⟨2023, 2, 7⟩ := by
  have h := parse_date_fallback_ignores_month_names ⟨2025, 1, 1⟩ "May 7"
    (some 2) (some 2023) ['7'] (by decide) (by decide) (by decide) (by decide)
  rw [h]
  decide

/-! ### C10: the year-1900 substitution -/

/-- **C10.** Any input whose first successful fixed-format parse carries
the year 1900 — in particular a literal `"DD.MM.1900"` — has that year
silently replaced by the default year (the caller's, or the current year
when none is supplied), so a genuine year-1900 date is never returned
for a nonzero default year. -/
theorem parse_date_replaces_year_1900
    (today : Date) (s : String) (dm dy : Option Nat) (m d : Nat)
    (hne : s ≠ "")
    (hfmt : firstFormatParse (pyStrip s) = some ⟨1900, m, d⟩)
    (hdy : dy.getD today.year ≠ 0)
    (hdy2 : dy.getD today.year ≤ 9999) :
    parse_date today s dm dy = some ⟨dy.getD today.year, m, d⟩ := by
  unfold parse_date
  rw [if_neg hne]
  simp only [hfmt]
  rw [if_pos (⟨hdy, trivial⟩ : dy.getD today.year ≠ 0 ∧ True), if_pos hdy2]

/-- Witness for C10: `"05.03.1900"` with default year 2024 comes back as
2024-03-05 — the literal year 1900 is unobtainable. -/
theorem parse_date_replaces_year_1900_witness :
    parse_date ⟨2025, 1, 1⟩ "05.03.1900" none (some 2024) =
      some ⟨2024, 3, 5⟩ := by
  have h := parse_date_replaces_year_1900 ⟨2025, 1, 1⟩ "05.03.1900"
    none (some 2024) 3 5 (by decide) (by decide) (by decide) (by decide)
  exact h

/-! ## 4.2 Strategy A: explicit anchor, sequential generation
(`_parse_dates_from_start_cell`) -/

/-- Successor of a calendar date: `current_date + timedelta(days=1)` for
the valid dates `datetime.date` holds. -/
def Date.next (dt : Date) : Date :=
  if dt.day < daysInMonth dt.year dt.month then ⟨dt.year, dt.month, dt.day + 1⟩
  else if dt.month < 12 then ⟨dt.year, dt.month + 1, 1⟩
  else ⟨dt.year + 1, 1, 1⟩

/-- Python list indexing `l[i]`, including negative-index wrap-around;
`none` models `IndexError`. -/
def pyGet? {α : Type} (l : List α) (i : Int) : Option α :=
  if 0 ≤ i then l.get? i.toNat
  else if (-i).toNat ≤ l.length then l.get? (l.length - (-i).toNat)
  else none

/-- The rightward column walk of `_parse_dates_from_start_cell`: from
column `col` of the anchor row, stop at the first empty (or missing)
cell, skip weekday abbreviations, and otherwise record the current date
and advance it by one day.  Fuel-indexed on the number of remaining
columns, which the walk never exceeds. -/
def walkDatesAux : Nat → List String → Date → Nat → List (Date × Nat)
  | 0, _, _, _ => []
  | fuel + 1, row, cur, col =>
    match row.get? col with
    | none => []
    | some cell0 =>
      let cell := pyStrip cell0
      if cell = "" then []
      else if isDayAbbrev cell then walkDatesAux fuel row cur (col + 1)
      else (cur, col) :: walkDatesAux fuel row cur.next (col + 1)

/-- The column walk started at column `col` of `row` with date `cur`. -/
def walkDates (row : List String) (cur : Date) (col : Nat) : List (Date × Nat) :=
  walkDatesAux (row.length - col) row cur col

/-- One-step unfolding of the column walk. -/
theorem walkDates_eq (row : List String) (cur : Date) (col : Nat) :
    walkDates row cur col =
      match row.get? col with
      | none => []
      | some cell0 =>
        let cell := pyStrip cell0
        if cell = "" then []
        else if isDayAbbrev cell then walkDates row cur (col + 1)
        else (cur, col) :: walkDates row cur.next (col + 1) := by
  unfold walkDates
  rcases Nat.lt_or_ge col row.length with h | h
  · have hsub : row.length - col = (row.length - (col + 1)) + 1 := by omega
    rw [hsub]
    rfl
  · have hsub : row.length - col = 0 := by omega
    have hget : row.get? col = none := by
      rw [List.get?_eq_none]; exact h
    rw [hsub, hget]
    rfl

theorem getD_eq_of_get? {row : List String} {col : Nat} {cell : String}
    (h : row.get? col = some cell) : row.getD col "" = cell := by
  rw [List.getD_eq_getD_get?, h]
  rfl

theorem getD_eq_of_get?_none {row : List String} {col : Nat}
    (h : row.get? col = none) : row.getD col "" = "" := by
  rw [List.getD_eq_getD_get?, h]
  rfl

/-- Every column recorded by the walk lies in a contiguous run of
non-empty cells starting at the walk's current column. -/
theorem walkDatesAux_no_gap :
    ∀ fuel (row : List String) (cur : Date) col p,
      p ∈ walkDatesAux fuel row cur col →
      ∀ j, col ≤ j → j ≤ p.2 → pyStrip (row.getD j "") ≠ "" := by
  intro fuel
  induction fuel with
  | zero => intro row cur col p hp; simp [walkDatesAux] at hp
  | succ f ih =>
    intro row cur col p hp j hj1 hj2
    rw [walkDatesAux] at hp
    cases hget : row.get? col with
    | none => rw [hget] at hp; simp at hp
    | some cell0 =>
      rw [hget] at hp
      simp only at hp
      by_cases hcell : pyStrip cell0 = ""
      · rw [if_pos hcell] at hp; simp at hp
      · rw [if_neg hcell] at hp
        have hcol : pyStrip (row.getD col "") ≠ "" := by
          rw [getD_eq_of_get? hget]; exact hcell
        by_cases habb : isDayAbbrev (pyStrip cell0) = true
        · rw [if_pos habb] at hp
          rcases Nat.eq_or_lt_of_le hj1 with hj | hj
          · rw [hj] at hcol; exact hcol
          · exact ih row cur (col + 1) p hp j hj hj2
        · rw [if_neg habb] at hp
          rcases List.mem_cons.mp hp with hp | hp
          · subst hp
            have hjc : j = col := by omega
            rw [hjc]; exact hcol
          · rcases Nat.eq_or_lt_of_le hj1 with hj | hj
            · rw [hj] at hcol; exact hcol
            · exact ih row cur.next (col + 1) p hp j hj hj2

/-- `_parse_dates_from_start_cell`: decode the anchor reference, check
the row bound, determine the start date (explicit string first, then the
anchor cell's own text), and walk columns rightward.  A `(none, [])`
result models every failure return of the source, including the
`except` handler. -/
def parse_dates_from_start_cell (today : Date) (data : List (List String))
    (startCell : String) (startDateStr : Option String) :
    Option Int × List (Date × Nat) :=
  match cell_to_indices startCell with
  | none => (none, [])
  | some (ri, ci) =>
    if (data.length : Int) ≤ ri then (none, [])
    else
      let sd0 : Option Date :=
        match startDateStr with
        | some sds => if sds ≠ "" then parse_date today sds none none else none
        | none => none
      let sd : Option Date :=
        match sd0 with
        | some d => some d
        | none =>
          match pyGet? data ri with
          | none => none
          | some row =>
            let cell := row.getD ci ""
            if cell ≠ "" then parse_date today (pyStrip cell) none none
            else none
      match sd with
      | none => (none, [])
      | some startDate =>
        match pyGet? data ri with
        | none => (none, [])
        | some row =>
          let dm := walkDates row startDate ci
          if dm ≠ [] then (some ri, dm) else (none, [])

/-- **C3.** The explicit-anchor column walk: (1) it stops at the first
column whose trimmed cell is empty or past the row's end, so no later
column is ever mapped — every mapped column sits in a run of non-empty
cells from the walk's start; (2) a weekday-abbreviation column is
skipped without advancing the date or recording a mapping; (3) any other
column is recorded as `current_date -> column` and the date advances by
exactly one calendar day.  The spec's concrete scenario follows: anchor
`"C7"` with start date 2025-11-24 over header row
`["", "", "24.11.2025", "25.11.2025", "", "X"]` yields exactly
`{2025-11-24 -> 2, 2025-11-25 -> 3}`, never reaching column `"X"`. -/
theorem walk_dates_spec :
    (∀ (row : List String) (cur : Date) col,
      pyStrip (row.getD col "") = "" → walkDates row cur col = []) ∧
    (∀ (row : List String) (cur : Date) col,
      pyStrip (row.getD col "") ≠ "" →
      isDayAbbrev (pyStrip (row.getD col "")) = true →
      walkDates row cur col = walkDates row cur (col + 1)) ∧
    (∀ (row : List String) (cur : Date) col,
      pyStrip (row.getD col "") ≠ "" →
      isDayAbbrev (pyStrip (row.getD col "")) = false →
      walkDates row cur col = (cur, col) :: walkDates row cur.next (col + 1)) ∧
    (∀ (row : List String) (cur : Date) col p,
      p ∈ walkDates row cur col →
      ∀ j, col ≤ j → j ≤ p.2 → pyStrip (row.getD j "") ≠ "") ∧
    (parse_dates_from_start_cell ⟨2025, 1, 10⟩
        [[], [], [], [], [], [], ["", "", "24.11.2025", "25.11.2025", "", "X"]]
        "C7" (some "24.11.2025") =
      (some 6, [(⟨2025, 11, 24⟩, 2), (⟨2025, 11, 25⟩, 3)])) := by
  refine ⟨?_, ?_, ?_, ?_, by decide⟩
  · intro row cur col hcell
    rw [walkDates_eq]
    cases hget : row.get? col with
    | none => rfl
    | some cell0 =>
      rw [getD_eq_of_get? hget] at hcell
      simp [hcell]
  · intro row cur col hcell habb
    rw [walkDates_eq]
    cases hget : row.get? col with
    | none =>
      exact absurd (by rw [getD_eq_of_get?_none hget]; decide) hcell
    | some cell0 =>
      rw [getD_eq_of_get? hget] at hcell habb
      simp [hcell, habb]
  · intro row cur col hcell habb
    rw [walkDates_eq]
    cases hget : row.get? col with
    | none =>
      exact absurd (by rw [getD_eq_of_get?_none hget]; decide) hcell
    | some cell0 =>
      rw [getD_eq_of_get? hget] at hcell habb
      simp [hcell, habb]
  · intro row cur col p hp
    exact walkDatesAux_no_gap _ row cur col p hp

/-- Witness for C3: a non-empty, non-abbreviation cell is recorded at
its column and the walk continues with the next calendar day. -/
theorem walk_dates_spec_witness :
    walkDates ["05"] ⟨2024, 8, 1⟩ 0 =
      (⟨2024, 8, 1⟩, 0) :: walkDates ["05"] (Date.next ⟨2024, 8, 1⟩) 1 :=
  walk_dates_spec.2.2.1 ["05"] ⟨2024, 8, 1⟩ 0 (by decide) (by decide)

/-! ## 4.2 Strategy B: auto-detection month-row scan
(`_find_header_row`, first loop) -/

/-- Month-name cells of a row counted by the auto-detection scan:
columns from index 2 up to `min(len(row), 100)`, a cell counting when
`_parse_month_name` of its stripped text is truthy. -/
def monthCount (row : List String) : Nat :=
  ((List.range' 2 (min row.length 100 - 2)).filter
    (fun col => (parse_month_name (pyStrip (row.getD col ""))).isSome)).length

/-- A row the month scan can select: at least 3 cells (`len(row) < 3`
rows are skipped) and a positive month count (`month_count > 0`). -/
def rowQualifiesMonth (row : List String) : Bool :=
  decide (3 ≤ row.length) && decide (1 ≤ monthCount row)

/-- First index at or after `i`, within `fuel` further candidates,
satisfying `p`: the `for ... break` search loop shape. -/
def findFirstIdxAux (p : Nat → Bool) : Nat → Nat → Option Nat
  | 0, _ => none
  | fuel + 1, i => if p i then some i else findFirstIdxAux p fuel (i + 1)

/-- The month-row selection of `_find_header_row`: the first row index in
`range(min(15, len(data)))` whose row qualifies. -/
def findMonthRow (data : List (List String)) : Option Nat :=
  findFirstIdxAux (fun i => rowQualifiesMonth (data.getD i [])) (min 15 data.length) 0

theorem findFirstIdxAux_eq_some (p : Nat → Bool) :
    ∀ fuel i k, findFirstIdxAux p fuel i = some k ↔
      (i ≤ k ∧ k < i + fuel ∧ p k = true ∧ ∀ j, i ≤ j → j < k → p j = false) := by
  intro fuel
  induction fuel with
  | zero =>
    intro i k
    simp only [findFirstIdxAux]
    constructor
    · intro h; cases h
    · rintro ⟨h1, h2, -, -⟩; omega
  | succ f ih =>
    intro i k
    simp only [findFirstIdxAux]
    by_cases hp : p i = true
    · rw [if_pos hp]
      constructor
      · rintro ⟨rfl⟩
        exact ⟨le_refl _, by omega, hp, fun j hj1 hj2 => by omega⟩
      · rintro ⟨h1, h2, h3, h4⟩
        rcases Nat.eq_or_lt_of_le h1 with h | h
        · rw [h]
        · exact absurd hp (by rw [h4 i (le_refl _) h]; simp)
    · rw [if_neg hp]
      rw [ih (i + 1) k]
      have hpf : p i = false := by
        cases h : p i
        · rfl
        · exact absurd h hp
      constructor
      · rintro ⟨h1, h2, h3, h4⟩
        refine ⟨by omega, by omega, h3, fun j hj1 hj2 => ?_⟩
        rcases Nat.eq_or_lt_of_le hj1 with h | h
        · rw [← h]; exact hpf
        · exact h4 j h hj2
      · rintro ⟨h1, h2, h3, h4⟩
        have hik : i ≠ k := by
          intro h; rw [← h] at h3; exact absurd h3 (by rw [hpf]; simp)
        exact ⟨by omega, by omega, h3, fun j hj1 hj2 => h4 j (by omega) hj2⟩

/-- **C7 counterexample.** A grid whose row 0 holds exactly one
month-name cell (`"aug"` at column 2): the scan selects it as the month
row, refuting the claim that two or more month-name cells are required. -/
theorem find_month_row_single_month_cell_selected :
    findMonthRow [["", "", "aug"], ["", "", ""], ["", "", "1", "2", "3", "4", "5"]] =
      some 0 ∧
    monthCount ["", "", "aug"] = 1 := by
  refine ⟨by decide, by decide⟩

/-- **C7 (amended).** A row within the first ~15 rows is selected as the
month row iff it is the first row in the scan window having at least 3
cells and **one or more** cells (from column index 2 up to column 100)
that parse as a month name via the bilingual lexicon; the source tests
`month_count > 0`, not `>= 2`. -/
theorem find_month_row_iff (data : List (List String)) (i : Nat) :
    findMonthRow data = some i ↔
      (i < min 15 data.length ∧
       3 ≤ (data.getD i []).length ∧ 1 ≤ monthCount (data.getD i []) ∧
       ∀ j < i, ¬(3 ≤ (data.getD j []).length ∧ 1 ≤ monthCount (data.getD j []))) := by
  unfold findMonthRow
  rw [findFirstIdxAux_eq_some]
  have hq : ∀ row : List String, rowQualifiesMonth row = true ↔
      (3 ≤ row.length ∧ 1 ≤ monthCount row) := by
    intro row; simp [rowQualifiesMonth]
  have hqf : ∀ row : List String, rowQualifiesMonth row = false ↔
      ¬(3 ≤ row.length ∧ 1 ≤ monthCount row) := by
    intro row
    rw [← Bool.not_eq_true, hq]
  constructor
  · rintro ⟨-, h2, h3, h4⟩
    exact ⟨by omega, ((hq _).mp h3).1, ((hq _).mp h3).2,
      fun j hj => (hqf _).mp (h4 j (Nat.zero_le _) hj)⟩
  · rintro ⟨h1, h2, h3, h4⟩
    exact ⟨Nat.zero_le _, by omega, (hq _).mpr ⟨h2, h3⟩,
      fun j _ hj => (hqf _).mpr (h4 j hj)⟩

/-! ## 4.4 Merge Canonicalizer (`load_calendar` merge loop) -/

/-- A merge rectangle as reported by the sheet service: half-open row and
column intervals. -/
structure MergeRect where
  startRow : Nat
  endRow : Nat
  startCol : Nat
  endCol : Nat
  deriving DecidableEq, Repr

/-- Whether `(r, c)` lies inside the half-open span of `mg`: exactly the
cells visited by the source's two nested `range` loops. -/
def coversCell (mg : MergeRect) (r c : Nat) : Bool :=
  decide (mg.startRow ≤ r) && decide (r < mg.endRow) &&
  decide (mg.startCol ≤ c) && decide (c < mg.endCol)

/-- One merge rectangle written over the map under construction: covered
cells point to `(start_row, start_col, end_row, end_col)`, later writes
overwriting earlier ones as in the Python `dict` assignment. -/
def mergedStep (acc : Nat × Nat → Option (Nat × Nat × Nat × Nat))
    (mg : MergeRect) : Nat × Nat → Option (Nat × Nat × Nat × Nat) :=
  fun rc =>
    if coversCell mg rc.1 rc.2 then
      some (mg.startRow, mg.startCol, mg.endRow, mg.endCol)
    else acc rc

/-- `merged_cells_map` built by `load_calendar` from the merge list. -/
def buildMergedMap (merges : List MergeRect) :
    Nat × Nat → Option (Nat × Nat × Nat × Nat) :=
  merges.foldl mergedStep (fun _ => none)

/-- Bounds-checked trimmed read of a grid cell, empty when the position
is outside the ragged grid. -/
def readCell (grid : List (List String)) (r c : Nat) : String :=
  match grid.get? r with
  | none => ""
  | some row =>
    match row.get? c with
    | none => ""
    | some v => pyStrip v

/-- The occupancy-cell read of `get_available_rooms` /
`check_room_availability`: resolve `(r, c)` through the merged-cell map
to the merge's start cell when present, then read with bounds checks. -/
def get_cell_text (grid : List (List String))
    (merged : Nat × Nat → Option (Nat × Nat × Nat × Nat)) (r c : Nat) : String :=
  match merged (r, c) with
  | some (sr, sc, _, _) => readCell grid sr sc
  | none => readCell grid r c

theorem foldl_merged_no_cover :
    ∀ (merges : List MergeRect) (acc : Nat × Nat → Option (Nat × Nat × Nat × Nat))
      (r c : Nat),
      (∀ mg ∈ merges, coversCell mg r c = false) →
      merges.foldl mergedStep acc (r, c) = acc (r, c) := by
  intro merges
  induction merges with
  | nil => intro acc r c _; rfl
  | cons mg t ih =>
    intro acc r c hno
    rw [List.foldl_cons]
    rw [ih (mergedStep acc mg) r c (fun m hm => hno m (by simp [hm]))]
    unfold mergedStep
    rw [if_neg (by rw [hno mg (by simp)]; simp)]

theorem foldl_merged_unique_cover :
    ∀ (merges : List MergeRect) (acc : Nat × Nat → Option (Nat × Nat × Nat × Nat))
      (r c : Nat) (M : MergeRect),
      M ∈ merges → coversCell M r c = true →
      (∀ mg ∈ merges, coversCell mg r c = true → mg = M) →
      merges.foldl mergedStep acc (r, c) =
        some (M.startRow, M.startCol, M.endRow, M.endCol) := by
  intro merges
  induction merges with
  | nil => intro acc r c M hM; cases hM
  | cons mg t ih =>
    intro acc r c M hM hcov huniq
    rw [List.foldl_cons]
    by_cases hMt : M ∈ t
    · exact ih _ r c M hMt hcov (fun m hm hc => huniq m (by simp [hm]) hc)
    · have hMmg : M = mg := by
        rcases List.mem_cons.mp hM with h | h
        · exact h
        · exact absurd h hMt
      have hnone : ∀ m ∈ t, coversCell m r c = false := by
        intro m hm
        cases h : coversCell m r c
        · rfl
        · exact absurd (huniq m (by simp [hm]) h ▸ hm) hMt
      rw [foldl_merged_no_cover t _ r c hnone]
      unfold mergedStep
      rw [← hMmg, if_pos hcov]

/-- **C4.** Reading the occupancy cell at `(r, c)` resolves through the
anchor map built from the merge rectangles: when a unique rectangle `M`
covers `(r, c)`, the text read is the trimmed text at `M`'s top-left
(start) cell; when no rectangle covers `(r, c)`, the position resolves
to itself and its own trimmed text is read; and the anchored read
yields the empty string whenever the anchor position is out of bounds
of the ragged grid — its row beyond the grid, or its column beyond that
(possibly short) row. -/
theorem get_cell_text_merge_anchor (grid : List (List String))
    (merges : List MergeRect) (r c : Nat) :
    (∀ M : MergeRect, M ∈ merges → coversCell M r c = true →
      (∀ mg ∈ merges, coversCell mg r c = true → mg = M) →
      get_cell_text grid (buildMergedMap merges) r c =
        readCell grid M.startRow M.startCol) ∧
    ((∀ mg ∈ merges, coversCell mg r c = false) →
      get_cell_text grid (buildMergedMap merges) r c = readCell grid r c) ∧
    (∀ a b : Nat, grid.length ≤ a → readCell grid a b = "") ∧
    (∀ (a b : Nat) (row : List String), grid.get? a = some row →
      row.length ≤ b → readCell grid a b = "") := by
  refine ⟨?_, ?_, ?_, ?_⟩
  · intro M hmem hcov huniq
    unfold get_cell_text buildMergedMap
    rw [foldl_merged_unique_cover merges _ r c M hmem hcov huniq]
  · intro hno
    have h0 : buildMergedMap merges (r, c) = none := by
      unfold buildMergedMap
      rw [foldl_merged_no_cover merges _ r c hno]
    unfold get_cell_text
    rw [h0]
  · intro a b ha
    unfold readCell
    rw [List.get?_eq_none.mpr ha]
  · intro a b row hrow hb
    unfold readCell
    rw [hrow]
    show (match row.get? b with | none => "" | some v => pyStrip v) = ""
    rw [List.get?_eq_none.mpr hb]

/-- The merged grid of the spec's §8 merge scenario: 8 rows, with the
anchor text `"Smith"` at `(5, 3)`. -/
def smithGrid : List (List String) :=
  [[], [], [], [], [], ["", "", "", "Smith"], [], []]

/-- The single merge rectangle spanning rows 5–7 and columns 3–4
inclusive (half-open end indices 8 and 5). -/
def smithMerges : List MergeRect := [⟨5, 8, 3, 5⟩]

/-- Witness for C4: the merged cells `(6,3)`, `(6,4)` and `(7,3)` all
read the anchor text `"Smith"`; the uncovered cell `(0,0)` reads its own
(empty) text; and the read at `(5,4)` — a column beyond the short row 5
— is empty. -/
theorem get_cell_text_merge_anchor_witness :
    get_cell_text smithGrid (buildMergedMap smithMerges) 6 3 = "Smith" ∧
    get_cell_text smithGrid (buildMergedMap smithMerges) 6 4 = "Smith" ∧
    get_cell_text smithGrid (buildMergedMap smithMerges) 7 3 = "Smith" ∧
    get_cell_text smithGrid (buildMergedMap smithMerges) 0 0 =
      readCell smithGrid 0 0 ∧
    readCell smithGrid 5 4 = "" := by
  refine ⟨?_, ?_, ?_, ?_, ?_⟩
  · rw [(get_cell_text_merge_anchor smithGrid smithMerges 6 3).1 ⟨5, 8, 3, 5⟩
      (by decide) (by decide) (by decide)]
    decide
  · rw [(get_cell_text_merge_anchor smithGrid smithMerges 6 4).1 ⟨5, 8, 3, 5⟩
      (by decide) (by decide) (by decide)]
    decide
  · rw [(get_cell_text_merge_anchor smithGrid smithMerges 7 3).1 ⟨5, 8, 3, 5⟩
      (by decide) (by decide) (by decide)]
    decide
  · exact (get_cell_text_merge_anchor smithGrid smithMerges 0 0).2.1 (by decide)
  · exact (get_cell_text_merge_anchor smithGrid smithMerges 5 4).2.2.2 5 4
      ["", "", "", "Smith"] (by decide) (by decide)

/-! ## 4.5 Year-agnostic date resolution (`_find_date_in_calendar`) -/

/-- Lookup of a date key in the date→column index (Python `dict` access;
keys are unique, so first match suffices). -/
def lookupDate (l : List (Date × Nat)) (k : Date) : Option Nat :=
  (l.find? (fun p => decide (p.1 = k))).map (·.2)

/-- `abs(a.year - t.year)`. -/
def yearDist (a t : Date) : Nat := ((a.year : Int) - t.year).natAbs

/-- The index dates sharing the target's month and day, in key
(insertion) order. -/
def monthDayMatches (map : List (Date × Nat)) (t : Date) : List Date :=
  (map.map Prod.fst).filter
    (fun k => decide (k.month = t.month) && decide (k.day = t.day))

/-- The `best_match` fold of `_find_date_in_calendar`: start from the
first match and replace it only on a strictly smaller year distance. -/
def bestMatch (t first : Date) (rest : List Date) : Date :=
  rest.foldl (fun best m => if yearDist m t < yearDist best t then m else best) first

/-- `_find_date_in_calendar`: the target itself on an exact key match,
else the month/day match with the closest year, else `none`. -/
def find_date_in_calendar (map : List (Date × Nat)) (t : Date) : Option Date :=
  if (lookupDate map t).isSome then some t
  else
    match monthDayMatches map t with
    | [] => none
    | b :: rest => some (bestMatch t b rest)

/-- `resolve_date` of the spec: the column of the resolved calendar date
(`date_columns[date] = self.date_column_map[found_date]`). -/
def resolve_date (map : List (Date × Nat)) (t : Date) : Option Nat :=
  (find_date_in_calendar map t).bind (lookupDate map)

theorem bestMatch_spec (t : Date) :
    ∀ (rest : List Date) (first : Date),
      bestMatch t first rest ∈ first :: rest ∧
      ∀ x ∈ first :: rest, yearDist (bestMatch t first rest) t ≤ yearDist x t := by
  intro rest
  induction rest with
  | nil =>
    intro first
    refine ⟨by simp [bestMatch], ?_⟩
    intro x hx
    simp at hx
    rw [hx]
    exact le_refl _
  | cons m rest ih =>
    intro first
    have hstep : bestMatch t first (m :: rest) =
        bestMatch t (if yearDist m t < yearDist first t then m else first) rest := by
      simp [bestMatch]
    by_cases h : yearDist m t < yearDist first t
    · rw [hstep, if_pos h]
      obtain ⟨h1, h2⟩ := ih m
      constructor
      · rcases List.mem_cons.mp h1 with hh | hh
        · rw [hh]; simp
        · simp [hh]
      · intro x hx
        rcases List.mem_cons.mp hx with hh | hh
        · rw [hh]
          exact le_trans (h2 m (by simp)) (le_of_lt h)
        · exact h2 x hh
    · rw [hstep, if_neg h]
      obtain ⟨h1, h2⟩ := ih first
      constructor
      · rcases List.mem_cons.mp h1 with hh | hh
        · rw [hh]; simp
        · simp [hh]
      · intro x hx
        rcases List.mem_cons.mp hx with hh | hh
        · rw [hh]; exact h2 first (by simp)
        · rcases List.mem_cons.mp hh with hh2 | hh2
          · rw [hh2]
            exact le_trans (h2 first (by simp)) (by omega)
          · exact h2 x (by simp [hh2])

/-- Members of the month/day match list are keys of the index, so their
column lookup succeeds. -/
theorem lookupDate_isSome_of_matches {map : List (Date × Nat)} {t m : Date}
    (hm : m ∈ monthDayMatches map t) : (lookupDate map m).isSome := by
  unfold monthDayMatches at hm
  have hm' := List.mem_of_mem_filter hm
  obtain ⟨p, hp, hpm⟩ := List.mem_map.mp hm'
  have hf : (map.find? (fun q => decide (q.1 = m))).isSome :=
    List.find?_isSome.mpr ⟨p, hp, by rw [hpm]; simp⟩
  obtain ⟨q, hq⟩ := Option.isSome_iff_exists.mp hf
  unfold lookupDate
  rw [hq]
  rfl

/-- **C2.** `resolve_date`: (exact) a date that is a key of the index
resolves to exactly its column; (fallback) with no exact key, it
resolves to the column of a month/day-matching index date whose year
distance to the target is minimal among all matches — and to `none` when
no index date shares the target's month and day.  In particular an index
of exactly `{2024-08-01: 5}` resolves 2025-08-01 to column 5. -/
theorem resolve_date_spec :
    (∀ (map : List (Date × Nat)) (t : Date),
      (∀ col, lookupDate map t = some col → resolve_date map t = some col) ∧
      (lookupDate map t = none →
        (monthDayMatches map t = [] → resolve_date map t = none) ∧
        (monthDayMatches map t ≠ [] →
          ∃ m ∈ monthDayMatches map t,
            resolve_date map t = lookupDate map m ∧
            (lookupDate map m).isSome ∧
            ∀ x ∈ monthDayMatches map t, yearDist m t ≤ yearDist x t))) ∧
    resolve_date [(⟨2024, 8, 1⟩, 5)] ⟨2025, 8, 1⟩ = some 5 := by
  constructor
  · intro map t
    constructor
    · intro col hcol
      unfold resolve_date find_date_in_calendar
      rw [if_pos (by rw [hcol]; rfl)]
      simpa using hcol
    · intro hnone
      have hns : ¬ (lookupDate map t).isSome = true := by rw [hnone]; simp
      constructor
      · intro hmat
        unfold resolve_date find_date_in_calendar
        rw [if_neg hns, hmat]
        rfl
      · intro hmat
        cases hm : monthDayMatches map t with
        | nil => exact absurd hm hmat
        | cons b rest =>
          obtain ⟨hmem, hmin⟩ := bestMatch_spec t rest b
          refine ⟨bestMatch t b rest, hmem, ?_, ?_, hmin⟩
          · unfold resolve_date find_date_in_calendar
            rw [if_neg hns, hm]
            rfl
          · exact lookupDate_isSome_of_matches (by rw [hm]; exact hmem)
  · decide

/-- Witness for C2 applied at a concrete exact match: an index holding
2024-08-01 at column 7 resolves that very date to column 7. -/
theorem resolve_date_spec_witness :
    resolve_date [(⟨2024, 8, 1⟩, 7)] ⟨2024, 8, 1⟩ = some 7 :=
  (resolve_date_spec.1 [(⟨2024, 8, 1⟩, 7)] ⟨2024, 8, 1⟩).1 7 (by decide)

/-! ## 4.5 Availability Engine (`get_available_rooms`)

The date-range enumeration `while current_date <= check_out_date` walks
valid `datetime.date` values, compared as Python compares dates
(lexicographically on year, month, day).  The embedding is fuel-indexed
on a rank difference; `datesFromTo_unfold` below shows the fuel never
truncates the loop on valid dates. -/

/-- A rank strictly monotone along `Date.next` and along the date order
for valid dates; drives the fuel of the range enumeration. -/
def Date.rank (dt : Date) : Nat := dt.year * 600 + dt.month * 40 + dt.day

/-- Python `date <= date` (tuple comparison on year, month, day). -/
def dateLeb (a b : Date) : Bool :=
  decide (a.year < b.year) ||
    (decide (a.year = b.year) &&
      (decide (a.month < b.month) ||
        (decide (a.month = b.month) && decide (a.day ≤ b.day))))

/-- Python `date < date` (strict tuple comparison). -/
def dateLtb (a b : Date) : Bool :=
  decide (a.year < b.year) ||
    (decide (a.year = b.year) &&
      (decide (a.month < b.month) ||
        (decide (a.month = b.month) && decide (a.day < b.day))))

/-- The `dates_to_check` loop of `get_available_rooms`. -/
def datesFromToAux : Nat → Date → Date → List Date
  | 0, _, _ => []
  | fuel + 1, cur, co =>
    if dateLeb cur co then cur :: datesFromToAux fuel cur.next co else []

/-- Every day from `ci` to `co` inclusive. -/
def datesFromTo (ci co : Date) : List Date :=
  datesFromToAux (co.rank + 1 - ci.rank) ci co

theorem daysInMonth_pos (y m : Nat) : 1 ≤ daysInMonth y m := by
  unfold daysInMonth
  split
  · split <;> norm_num
  · split <;> norm_num

theorem daysInMonth_le (y m : Nat) : daysInMonth y m ≤ 31 := by
  unfold daysInMonth
  split
  · split <;> norm_num
  · split <;> norm_num

theorem Date.next_valid {d : Date} (h : d.Valid) : d.next.Valid := by
  obtain ⟨hy, hm1, hm2, hd1, hd2⟩ := h
  unfold Date.next
  by_cases h1 : d.day < daysInMonth d.year d.month
  · rw [if_pos h1]
    refine ⟨hy, hm1, hm2, ?_, ?_⟩
    · show 1 ≤ d.day + 1
      omega
    · show d.day + 1 ≤ daysInMonth d.year d.month
      omega
  · rw [if_neg h1]
    by_cases h2 : d.month < 12
    · rw [if_pos h2]
      refine ⟨hy, ?_, ?_, ?_, ?_⟩
      · show 1 ≤ d.month + 1
        omega
      · show d.month + 1 ≤ 12
        omega
      · show 1 ≤ 1
        omega
      · show 1 ≤ daysInMonth d.year (d.month + 1)
        exact daysInMonth_pos _ _
    · rw [if_neg h2]
      refine ⟨?_, ?_, ?_, ?_, ?_⟩
      · show 1 ≤ d.year + 1
        omega
      · show 1 ≤ 1
        omega
      · show (1 : Nat) ≤ 12
        omega
      · show 1 ≤ 1
        omega
      · show 1 ≤ daysInMonth (d.year + 1) 1
        exact daysInMonth_pos _ _

theorem Date.rank_lt_next {d : Date} (h : d.Valid) : d.rank < d.next.rank := by
  obtain ⟨hy, hm1, hm2, hd1, hd2⟩ := h
  have hdim : daysInMonth d.year d.month ≤ 31 := daysInMonth_le _ _
  unfold Date.next
  by_cases h1 : d.day < daysInMonth d.year d.month
  · rw [if_pos h1]
    show d.year * 600 + d.month * 40 + d.day <
      d.year * 600 + d.month * 40 + (d.day + 1)
    omega
  · rw [if_neg h1]
    by_cases h2 : d.month < 12
    · rw [if_pos h2]
      show d.year * 600 + d.month * 40 + d.day <
        d.year * 600 + (d.month + 1) * 40 + 1
      omega
    · rw [if_neg h2]
      show d.year * 600 + d.month * 40 + d.day <
        (d.year + 1) * 600 + 1 * 40 + 1
      omega

theorem Date.rank_mono_of_leb {a b : Date} (ha : a.Valid) (hb : b.Valid)
    (h : dateLeb a b = true) : a.rank ≤ b.rank := by
  obtain ⟨hya, hma1, hma2, hda1, hda2⟩ := ha
  obtain ⟨hyb, hmb1, hmb2, hdb1, hdb2⟩ := hb
  have hdima : daysInMonth a.year a.month ≤ 31 := daysInMonth_le _ _
  have hdimb : daysInMonth b.year b.month ≤ 31 := daysInMonth_le _ _
  simp only [dateLeb, Bool.or_eq_true, Bool.and_eq_true, decide_eq_true_eq] at h
  show a.year * 600 + a.month * 40 + a.day ≤ b.year * 600 + b.month * 40 + b.day
  rcases h with h | ⟨he, h | ⟨he2, h3⟩⟩ <;> omega

theorem datesFromTo_nil {ci co : Date} (h : dateLeb ci co = false) :
    datesFromTo ci co = [] := by
  unfold datesFromTo
  cases hf : co.rank + 1 - ci.rank with
  | zero => rfl
  | succ n => simp [datesFromToAux, h]

theorem datesFromToAux_fuel_invariant :
    ∀ (f : Nat) (ci co : Date), ci.Valid → co.Valid →
      co.rank + 1 - ci.rank ≤ f →
      datesFromToAux f ci co = datesFromTo ci co := by
  intro f
  induction f using Nat.strong_induction_on with
  | _ f ihs =>
    intro ci co hci hco hf
    cases f with
    | zero =>
      have hleb : dateLeb ci co = false := by
        cases h : dateLeb ci co
        · rfl
        · have := Date.rank_mono_of_leb hci hco h
          omega
      rw [datesFromTo_nil hleb]
      rfl
    | succ g =>
      by_cases hleb : dateLeb ci co = true
      · have hr := Date.rank_mono_of_leb hci hco hleb
        have hnext := Date.rank_lt_next hci
        have hnv := Date.next_valid hci
        have hstep : datesFromToAux (g + 1) ci co =
            ci :: datesFromToAux g ci.next co := by
          simp [datesFromToAux, hleb]
        have hk : co.rank + 1 - ci.rank = (co.rank - ci.rank) + 1 := by omega
        have hrhs : datesFromTo ci co =
            ci :: datesFromToAux (co.rank - ci.rank) ci.next co := by
          unfold datesFromTo
          rw [hk]
          simp [datesFromToAux, hleb]
        rw [hstep, hrhs]
        congr 1
        rw [ihs g (by omega) ci.next co hnv hco (by omega),
          ihs (co.rank - ci.rank) (by omega) ci.next co hnv hco (by omega)]
      · have hleb' : dateLeb ci co = false := by
          cases h : dateLeb ci co
          · rfl
          · exact absurd h hleb
        rw [datesFromTo_nil hleb']
        simp [datesFromToAux, hleb']

set_option maxRecDepth 4000 in
/-- The fuel never truncates the enumeration: on valid dates the
embedded `dates_to_check` loop satisfies exactly the `while` loop's
unfolding. -/
theorem datesFromTo_unfold {ci co : Date} (hci : ci.Valid) (hco : co.Valid) :
    datesFromTo ci co =
      if dateLeb ci co then ci :: datesFromTo ci.next co else [] := by
  by_cases h : dateLeb ci co = true
  · rw [if_pos h]
    have hr := Date.rank_mono_of_leb hci hco h
    have hnext := Date.rank_lt_next hci
    have hnv := Date.next_valid hci
    have hk : co.rank + 1 - ci.rank = (co.rank - ci.rank) + 1 := by omega
    have hstep : datesFromTo ci co =
        ci :: datesFromToAux (co.rank - ci.rank) ci.next co := by
      unfold datesFromTo
      rw [hk]
      show (if dateLeb ci co then
          ci :: datesFromToAux (co.rank - ci.rank) ci.next co else []) = _
      rw [if_pos h]
    rw [hstep]
    congr 1
    exact datesFromToAux_fuel_invariant (co.rank - ci.rank) ci.next co hnv hco
      (by omega)
  · have h' : dateLeb ci co = false := by
      cases hh : dateLeb ci co
      · rfl
      · exact absurd hh h
    rw [if_neg (by rw [h']; simp), datesFromTo_nil h']

theorem dateLeb_false_of_ltb {a b : Date} (h : dateLtb a b = true) :
    dateLeb b a = false := by
  simp only [dateLtb, Bool.or_eq_true, Bool.and_eq_true, decide_eq_true_eq] at h
  cases hc : dateLeb b a
  · rfl
  · exfalso
    simp only [dateLeb, Bool.or_eq_true, Bool.and_eq_true, decide_eq_true_eq] at hc
    rcases h with h | ⟨he, h | ⟨he2, h3⟩⟩ <;>
      rcases hc with hc | ⟨hce, hc | ⟨hce2, hc3⟩⟩ <;> omega

/-! ### The loaded calendar state and the room scan -/

/-- An available room as returned by `get_available_rooms`:
`{"category": ..., "room": ...}`. -/
structure Room where
  category : String
  room : String
  deriving DecidableEq, Repr

/-- `is_occupied`: any non-empty trimmed text means occupied. -/
def is_occupied (s : String) : Bool := decide (pyStrip s ≠ "")

/-- The state installed by a successful `load_calendar`: the grid
snapshot, the date→column index (in insertion order), the merged-cell
anchor map, and the header/data-start rows. -/
structure CalendarState where
  sheetData : List (List String)
  dateColumnMap : List (Date × Nat)
  mergedCellsMap : Nat × Nat → Option (Nat × Nat × Nat × Nat)
  headerRowIndex : Nat
  dataStartRow : Nat

/-- The `date_columns` dict of `get_available_rooms`: each requested day
that `_find_date_in_calendar` resolves, paired with the column of the
resolved calendar date, in request order. -/
def resolvedDateColumns (map : List (Date × Nat)) (dates : List Date) :
    List (Date × Nat) :=
  dates.filterMap (fun d =>
    match find_date_in_calendar map d with
    | some fd => (lookupDate map fd).map (fun c => (d, c))
    | none => none)

/-- `legend_keywords` of the room scan. -/
def legendKeywords : List String := ["legend", "легенда", "категория", "category"]

/-- The first legend/header skip:
`category.lower() in legend_keywords and not room_number or
room_number.lower() in legend_keywords` (Python precedence:
`(A and B) or C`). -/
def roomHeaderSkip (category room : String) : Bool :=
  (legendKeywords.contains (pyLower category) && decide (room = "")) ||
    legendKeywords.contains (pyLower room)

/-- The second header-like skip on the category/room pair. -/
def roomHeaderSkip2 (category room : String) : Bool :=
  ["категория", "category"].contains (pyLower category) &&
    ["№ комнаты", "room", "room number", "room #"].contains (pyLower room)

/-- The category filter: a missing or empty filter never skips; the
normalized literal `ALL` disables filtering; otherwise rows are kept
exactly on a case-insensitive category match. -/
def filterSkip (cf : Option String) (category : String) : Bool :=
  match cf with
  | none => false
  | some f =>
    if f = "" then false
    else
      decide (pyUpper (pyStrip f) ≠ "ALL") &&
        decide (pyLower category ≠ pyLower (pyStrip f))

/-- One iteration of the room-scan loop of `get_available_rooms` in
`src/app/parser.py`: `none` models every `continue`/exclusion, `some`
the appended room.  The availability test over the resolved check-day
columns follows the source's loop: occupied on any checked column means
unavailable (the `break` does not change the outcome), and a room with
zero checked columns is excluded by the `checked_dates_count > 0`
guard. -/
def rowVerdict (grid : List (List String))
    (merged : Nat × Nat → Option (Nat × Nat × Nat × Nat))
    (dateCols : List (Date × Nat)) (datesToCheck : List Date)
    (cf : Option String) (rowIdx : Nat) : Option Room :=
  match grid.get? rowIdx with
  | none => none
  | some row =>
    if row.length < 2 then none
    else
      let category := pyStrip (row.getD 0 "")
      let room := pyStrip (row.getD 1 "")
      if category = "" ∨ room = "" then none
      else if roomHeaderSkip category room then none
      else if roomHeaderSkip2 category room then none
      else if filterSkip cf category then none
      else
        let resolvedCols := datesToCheck.filterMap (lookupDate dateCols)
        if (resolvedCols.all fun c =>
              !is_occupied (get_cell_text grid merged rowIdx c)) &&
            !resolvedCols.isEmpty then
          some ⟨category, room⟩
        else none

/-- `get_available_rooms` of `src/app/parser.py` on a loaded state:
enumerate the inclusive day range, resolve each day to a column, return
empty on an empty range, an empty resolution, or an empty row window,
and otherwise scan rows from `data_start_row` up to
`min(len(sheet_data), 39)` exclusive. -/
def get_available_rooms (st : CalendarState) (ci co : Date)
    (cf : Option String) : List Room :=
  if datesFromTo ci co = [] then []
  else if resolvedDateColumns st.dateColumnMap (datesFromTo ci co) = [] then []
  else if min st.sheetData.length 39 ≤ st.dataStartRow then []
  else
    (List.range' st.dataStartRow
        (min st.sheetData.length 39 - st.dataStartRow)).filterMap
      (rowVerdict st.sheetData st.mergedCellsMap
        (resolvedDateColumns st.dateColumnMap (datesFromTo ci co))
        (datesFromTo ci co) cf)

/-- The date-range guard of the `/rooms/available` endpoint
(`src/app/main.py`): `true` means the request is rejected with an HTTP
400 error before the parser is called. -/
def rooms_endpoint_rejects_range (ci co : Date) : Bool := dateLtb co ci

/-- A small loaded state: header row 0 maps 2024-08-01/02 to columns
2/3; two room rows. -/
def exampleState : CalendarState where
  sheetData :=
    [["", "", "01.08.2024", "02.08.2024"],
     ["Deluxe", "A-101", "", "Guest"],
     ["Standard", "B-201", "", ""]]
  dateColumnMap := [(⟨2024, 8, 1⟩, 2), (⟨2024, 8, 2⟩, 3)]
  mergedCellsMap := buildMergedMap []
  headerRowIndex := 0
  dataStartRow := 1

/-! ### C5: inverted date range -/

/-- **C5 counterexample.** With check-out strictly before check-in on a
loaded state, `get_available_rooms` raises nothing: it returns the
ordinary empty list (the inclusive enumeration is empty), so the claimed
`InvalidRange` failure of the engine does not exist — the core's only
raise is the not-loaded `ValueError`. -/
theorem get_available_rooms_inverted_range_returns_normally :
    dateLtb ⟨2024, 8, 1⟩ ⟨2024, 8, 2⟩ = true ∧
    get_available_rooms exampleState ⟨2024, 8, 2⟩ ⟨2024, 8, 1⟩ none = [] := by
  refine ⟨by decide, by decide⟩

/-- **C5 (amended).** For every loaded state and every range with
check-out strictly earlier than check-in, the parser's
`get_available_rooms` returns the empty list normally; the
`InvalidRange`-style rejection (HTTP 400) lives one layer up, in the
`/rooms/available` endpoint of `src/app/main.py`, which refuses the
range before calling the parser. -/
theorem get_available_rooms_inverted_range (st : CalendarState)
    (ci co : Date) (cf : Option String) (h : dateLtb co ci = true) :
    get_available_rooms st ci co cf = [] ∧
    rooms_endpoint_rejects_range ci co = true := by
  constructor
  · have hleb : dateLeb ci co = false := dateLeb_false_of_ltb h
    unfold get_available_rooms
    rw [if_pos (datesFromTo_nil hleb)]
  · exact h

/-- Witness for the amended C5 at a concrete inverted range. -/
theorem get_available_rooms_inverted_range_witness :
    get_available_rooms exampleState ⟨2025, 1, 2⟩ ⟨2025, 1, 1⟩ none = [] ∧
    rooms_endpoint_rejects_range ⟨2025, 1, 2⟩ ⟨2025, 1, 1⟩ = true :=
  get_available_rooms_inverted_range exampleState ⟨2025, 1, 2⟩ ⟨2025, 1, 1⟩
    none (by decide)

/-! ### C6: rooms with zero resolved check-days are excluded -/

/-- **C6.** A room whose check resolves zero requested days is never
included: globally, when every requested day fails to resolve, the
result is empty; and per row, the `checked_dates_count > 0` guard turns
a row with an empty resolved-column set into an exclusion, never an
inclusion by default. -/
theorem get_available_rooms_all_gaps_excluded :
    (∀ (st : CalendarState) (ci co : Date) (cf : Option String),
      (∀ d ∈ datesFromTo ci co,
        find_date_in_calendar st.dateColumnMap d = none) →
      get_available_rooms st ci co cf = []) ∧
    (∀ (grid : List (List String))
        (merged : Nat × Nat → Option (Nat × Nat × Nat × Nat))
        (dateCols : List (Date × Nat)) (datesToCheck : List Date)
        (cf : Option String) (rowIdx : Nat),
      (∀ d ∈ datesToCheck, lookupDate dateCols d = none) →
      rowVerdict grid merged dateCols datesToCheck cf rowIdx = none) := by
  constructor
  · intro st ci co cf hall
    unfold get_available_rooms
    by_cases h1 : datesFromTo ci co = []
    · rw [if_pos h1]
    · rw [if_neg h1]
      have h2 : resolvedDateColumns st.dateColumnMap (datesFromTo ci co) = [] := by
        unfold resolvedDateColumns
        rw [List.filterMap_eq_nil_iff]
        intro d hd
        rw [hall d hd]
      rw [if_pos h2]
  · intro grid merged dateCols datesToCheck cf rowIdx hall
    unfold rowVerdict
    cases hg : grid.get? rowIdx with
    | none => rfl
    | some row =>
      have hres : datesToCheck.filterMap (lookupDate dateCols) = [] :=
        List.filterMap_eq_nil_iff.mpr hall
      simp only [hres]
      repeat' split
      all_goals simp_all

/-- Witness for C6: a range entirely absent from the calendar (no exact
or month/day match) yields the empty room list. -/
theorem get_available_rooms_all_gaps_excluded_witness :
    get_available_rooms exampleState ⟨2023, 5, 5⟩ ⟨2023, 5, 5⟩ none = [] :=
  get_available_rooms_all_gaps_excluded.1 exampleState ⟨2023, 5, 5⟩
    ⟨2023, 5, 5⟩ none (by decide)

/-! ### C1: the row window of the room scan -/

/-- **C1 (amended).** Membership in the result of `get_available_rooms`
(`src/app/parser.py`) is exactly: the requested range is non-empty, at
least one day resolved, and some row index `r` with
`data_start_row ≤ r < min(len(sheet_data), 39)` passes the row checks as
that room.  The scan window is capped at row index 38: grid rows at
index 39 and beyond are never examined (the legacy `src/parser.py`
variant scans to the end of the grid instead). -/
theorem get_available_rooms_mem_iff (st : CalendarState) (ci co : Date)
    (cf : Option String) (rm : Room) :
    rm ∈ get_available_rooms st ci co cf ↔
      (datesFromTo ci co ≠ [] ∧
       resolvedDateColumns st.dateColumnMap (datesFromTo ci co) ≠ [] ∧
       ∃ r, st.dataStartRow ≤ r ∧ r < min st.sheetData.length 39 ∧
         rowVerdict st.sheetData st.mergedCellsMap
           (resolvedDateColumns st.dateColumnMap (datesFromTo ci co))
           (datesFromTo ci co) cf r = some rm) := by
  unfold get_available_rooms
  by_cases h1 : datesFromTo ci co = []
  · rw [if_pos h1]
    simp [h1]
  · rw [if_neg h1]
    by_cases h2 : resolvedDateColumns st.dateColumnMap (datesFromTo ci co) = []
    · rw [if_pos h2]
      simp [h1, h2]
    · rw [if_neg h2]
      by_cases h3 : min st.sheetData.length 39 ≤ st.dataStartRow
      · rw [if_pos h3]
        simp only [List.not_mem_nil, false_iff]
        rintro ⟨-, -, r, hr1, hr2, -⟩
        omega
      · rw [if_neg h3]
        rw [List.mem_filterMap]
        constructor
        · rintro ⟨r, hr, hv⟩
          rw [List.mem_range'_1] at hr
          exact ⟨h1, h2, r, hr.1, by omega, hv⟩
        · rintro ⟨-, -, r, hr1, hr2, hv⟩
          exact ⟨r, List.mem_range'_1.mpr ⟨hr1, by omega⟩, hv⟩

/-- A 40-row grid: header at row 0, junk rows 1–38, and a valid,
entirely free room row at index 39. -/
def tallGrid : List (List String) :=
  [["", "", "01.08.2024"]] ++ List.replicate 38 ["", ""] ++
    [["Deluxe", "A-500", ""]]

/-- The loaded state over `tallGrid`. -/
def tallState : CalendarState where
  sheetData := tallGrid
  dateColumnMap := [(⟨2024, 8, 1⟩, 2)]
  mergedCellsMap := buildMergedMap []
  headerRowIndex := 0
  dataStartRow := 1

/-- **C1 counterexample.** Row index 39 of the 40-row grid holds the
valid, free room pair `("Deluxe", "A-500")`, the requested day resolves
to column 2, and the cell there is free — yet `get_available_rooms`
returns the empty list, because its scan stops before row index 39: the
claim that every row to the end of the grid is examined is false. -/
theorem get_available_rooms_row_39_never_examined :
    get_available_rooms tallState ⟨2024, 8, 1⟩ ⟨2024, 8, 1⟩ none = [] ∧
    tallState.sheetData.length = 40 ∧
    tallState.dataStartRow ≤ 39 ∧
    pyStrip ((tallState.sheetData.getD 39 []).getD 0 "") = "Deluxe" ∧
    pyStrip ((tallState.sheetData.getD 39 []).getD 1 "") = "A-500" ∧
    is_occupied
      (get_cell_text tallState.sheetData tallState.mergedCellsMap 39 2) = false ∧
    resolvedDateColumns tallState.dateColumnMap
      (datesFromTo ⟨2024, 8, 1⟩ ⟨2024, 8, 1⟩) = [(⟨2024, 8, 1⟩, 2)] := by
  refine ⟨by decide, by decide, by decide, by decide, by decide, by decide, by decide⟩

end SheetsParser
